import Mathlib

/-!
Verification of the QuickDo task manager (src/main.py).

The development shallowly embeds the record codec (Task.to_string and
Task.from_string), the store operations (load_tasks, complete_task,
list_tasks), the reminder delay parsing (parse_delay inside remind) and the
report aggregation (report).  Python strings are modelled as lists of
characters, datetimes as absolute minute counts, exceptions as Option or
Except values.
-/

namespace QuickDo

/-- Strings are modelled as lists of characters. -/
abbrev Str := List Char

/-- The whitespace set of CPython str objects: what str.strip with no
arguments removes and what the regex whitespace classes match on str
patterns.  It holds the ASCII whitespace characters 0x09 to 0x0d and 0x20,
the separator control characters 0x1c to 0x1f, and the Unicode whitespace
characters: NEL 0x85, NBSP 0xa0, the Ogham space 0x1680, the spaces 0x2000
to 0x200a, the line and paragraph separators 0x2028 and 0x2029, the narrow
NBSP 0x202f, the mathematical space 0x205f and the ideographic space
0x3000. -/
def isSpace (c : Char) : Bool :=
  decide ((9 ≤ c.toNat ∧ c.toNat ≤ 13) ∨ c.toNat = 32 ∨
    (28 ≤ c.toNat ∧ c.toNat ≤ 31) ∨ c.toNat = 133 ∨ c.toNat = 160 ∨
    c.toNat = 5760 ∨ (8192 ≤ c.toNat ∧ c.toNat ≤ 8202) ∨ c.toNat = 8232 ∨
    c.toNat = 8233 ∨ c.toNat = 8239 ∨ c.toNat = 8287 ∨ c.toNat = 12288)

/-- Leading whitespace removed. -/
def lstrip (s : Str) : Str := s.dropWhile isSpace

/-- Python str.strip with no arguments: whitespace removed from both ends. -/
def strip (s : Str) : Str := ((lstrip s).reverse.dropWhile isSpace).reverse

/-- Python str.split on the single bar character: keeps empty segments, and
splitting the empty string yields one empty segment. -/
def splitPipe : Str → List Str
  | [] => [[]]
  | c :: rest =>
    if c = '|' then [] :: splitPipe rest
    else (splitPipe rest).modifyHead (fun s => c :: s)

/-- Python join with the bar character as separator. -/
def joinPipe : List Str → Str
  | [] => []
  | [s] => s
  | s :: ss => s ++ '|' :: joinPipe ss

/-- The maximal run of non-whitespace characters at the front of a string:
what a greedy non-whitespace-plus group captures. -/
def takeNonSpace (s : Str) : Str := s.takeWhile (fun c => !isSpace c)

/-- Whether the due-date pattern of Task.from_string matches at the start of
the string: the four characters d, u, e, colon followed by at least one
non-whitespace character.  Returns the captured group (the maximal
non-whitespace run after the colon). -/
def dueAt : Str → Option Str
  | c1 :: c2 :: c3 :: c4 :: tail =>
    if c1 = 'd' ∧ c2 = 'u' ∧ c3 = 'e' ∧ c4 = ':' ∧ takeNonSpace tail ≠ [] then
      some (takeNonSpace tail)
    else none
  | _ => none

/-- re.search for the due pattern: the leftmost position where the pattern
matches.  Returns the text before the match paired with the captured group,
mirroring title_full up to match start and group one of the match. -/
def findDue : Str → Option (Str × Str)
  | [] => none
  | c :: rest =>
    match dueAt (c :: rest) with
    | some g => some ([], g)
    | none => (findDue rest).map (fun p => (c :: p.1, p.2))

/-- A task record: the fields of the Python Task class.  due_date carries
Python's None as none; created_at is kept verbatim as a string. -/
structure Task where
  title : Str
  due_date : Option Str
  priority : Str
  category : Str
  completed : Bool
  created_at : Str
  deriving DecidableEq, Repr

/-- The due suffix appended by Task.to_string: a space then due colon then
the date when due_date is truthy (set and non-empty), nothing otherwise. -/
def dueStr (t : Task) : Str :=
  match t.due_date with
  | some d => if d = [] then [] else ' ' :: 'd' :: 'u' :: 'e' :: ':' :: d
  | none => []

/-- Task.to_string: mark, created_at, priority, category and title joined by
bars, with the due token appended right after the title. -/
def Task.to_string (t : Task) : Str :=
  (if t.completed then ['+'] else ['-']) ++
    '|' :: (t.created_at ++ '|' :: (t.priority ++ '|' :: (t.category ++
      '|' :: (t.title ++ dueStr t))))

/-- Everything of the encoded line that precedes the title text. -/
def encodeHead (t : Task) : Str :=
  (if t.completed then ['+'] else ['-']) ++
    '|' :: (t.created_at ++ '|' :: (t.priority ++ '|' :: (t.category ++ ['|'])))

/-- Task.from_string: strip the line, split on bars into four leading fields
plus a tail rejoined with bars, extract the embedded due token from the tail.
Fewer than four fields makes the unpacking raise, which the method catches,
reports and turns into None; that failure path is the none value here. -/
def Task.from_string (line : Str) : Option Task :=
  match splitPipe (strip line) with
  | completed_mark :: created_at :: priority :: category :: title_parts =>
    match findDue (joinPipe title_parts) with
    | some (pre, g) =>
      some { title := strip pre, due_date := some g, priority := priority,
             category := category, completed := completed_mark == ['+'],
             created_at := created_at }
    | none =>
      some { title := strip (joinPipe title_parts), due_date := none,
             priority := priority, category := category,
             completed := completed_mark == ['+'], created_at := created_at }
  | _ => none

/-- Whether a line of text contains a due token, in the sense of the decoder:
the search for the due pattern succeeds somewhere in it. -/
def containsDue (s : Str) : Bool := (findDue s).isSome

/-- QuickDo.load_tasks: decode the stored lines in order, skipping blank
lines and lines whose decoding failed. -/
def load_tasks (lines : List Str) : List Task :=
  lines.filterMap (fun line => if strip line = [] then none else Task.from_string line)

/-- Set the completed flag of the record at the given zero-based index. -/
def setCompletedAt : List Task → Nat → List Task
  | [], _ => []
  | t :: ts, 0 => { t with completed := true } :: ts
  | t :: ts, n + 1 => t :: setCompletedAt ts n

/-- QuickDo.complete_task: a one-based bounds check against the full
sequence; in range, the record's completed flag is set to true and the store
is rewritten (the boolean records that save_tasks ran); out of range, the
invalid-task-number message is printed, nothing is written and the sequence
is untouched (the boolean is false). -/
def complete_task (tasks : List Task) (task_id : Int) : List Task × Bool :=
  if 1 ≤ task_id ∧ task_id ≤ (tasks.length : Int) then
    (setCompletedAt tasks (task_id - 1).toNat, true)
  else (tasks, false)

/-- enumerate(tasks, 1): records paired with their one-based positions. -/
def numberTasks : Nat → List Task → List (Nat × Task)
  | _, [] => []
  | i, t :: ts => (i, t) :: numberTasks (i + 1) ts

/-- QuickDo.list_tasks: none models the no-active-tasks message printed for
an empty store; otherwise the (position, record) pairs actually printed, in
order, skipping completed records unless show_completed. -/
def list_tasks (tasks : List Task) (show_completed : Bool) : Option (List (Nat × Task)) :=
  if tasks.isEmpty then none
  else some ((numberTasks 1 tasks).filter (fun p => !(p.2.completed && !show_completed)))

/-- The decimal digit characters, as produced by Python str on 0 to 9. -/
def digitChar : Nat → Char
  | 0 => '0' | 1 => '1' | 2 => '2' | 3 => '3' | 4 => '4'
  | 5 => '5' | 6 => '6' | 7 => '7' | 8 => '8' | 9 => '9' | _ => '*'

/-- Whether a character is a decimal digit. -/
def isDigit (c : Char) : Bool := decide (48 ≤ c.toNat ∧ c.toNat ≤ 57)

/-- Numeric value of a digit character. -/
def dval (c : Char) : Nat := c.toNat - 48

/-- Value of a digit character, none on anything else. -/
def digitVal (c : Char) : Option Nat := if isDigit c then some (dval c) else none

/-- Left-to-right accumulation of decimal digits; none on a non-digit. -/
def parseDigitsAux : Nat → Str → Option Nat
  | acc, [] => some acc
  | acc, c :: cs =>
    match digitVal c with
    | some d => parseDigitsAux (10 * acc + d) cs
    | none => none

/-- Python int on a string, for ASCII decimal input: strip whitespace, an
optional sign, then a non-empty run of digits; anything else raises
ValueError, modelled as none. -/
def pyInt (s : Str) : Option Int :=
  if strip s = [] then none
  else if (strip s).head? = some '-' then
    (if (strip s).drop 1 = [] then none
     else (parseDigitsAux 0 ((strip s).drop 1)).map (fun v => -(v : Int)))
  else if (strip s).head? = some '+' then
    (if (strip s).drop 1 = [] then none
     else (parseDigitsAux 0 ((strip s).drop 1)).map (fun v => (v : Int)))
  else (parseDigitsAux 0 (strip s)).map (fun v => (v : Int))

/-- Python str of a natural number: its decimal digits. -/
def natRepr (n : Nat) : Str :=
  if n < 10 then [digitChar n]
  else natRepr (n / 10) ++ [digitChar (n % 10)]
  termination_by n
  decreasing_by exact Nat.div_lt_self (by omega) (by omega)

/-- parse_delay inside QuickDo.remind: the last character of the delay
string is lowercased and looked up as the unit (m, h, d give 60, 3600,
86400 seconds, anything else defaults to 60); the integer value is parsed
from everything before the last character.  none models the exceptions: an
empty string raises IndexError, a non-integer value part raises ValueError. -/
def parse_delay (delay_str : Str) : Option Int :=
  match delay_str.getLast? with
  | none => none
  | some last =>
    match pyInt delay_str.dropLast with
    | none => none
    | some value =>
      some (value * (if last.toLower = 'm' then 60
                     else if last.toLower = 'h' then 3600
                     else if last.toLower = 'd' then 86400 else 60))

/-- Gregorian leap year test. -/
def leapYear (y : Nat) : Bool := y % 4 = 0 && (y % 100 ≠ 0 || y % 400 = 0)

/-- Days in a month of the Gregorian calendar. -/
def daysInMonth (y m : Nat) : Nat :=
  if m = 2 then (if leapYear y then 29 else 28)
  else if m = 4 || m = 6 || m = 9 || m = 11 then 30 else 31

/-- Exactly four digit characters, as the strptime directive for the year
requires; returns the value and the rest of the input. -/
def parse4Y : Str → Option (Nat × Str)
  | a :: b :: c :: d :: rest =>
    if isDigit a && isDigit b && isDigit c && isDigit d then
      some (1000 * dval a + 100 * dval b + 10 * dval c + dval d, rest)
    else none
  | _ => none

/-- A one- or two-digit numeric field as strptime matches it: two digits are
taken when they form a value the two-digit alternatives accept, otherwise
one digit passing the one-digit alternative. -/
def parse21 (valid2 : Nat → Bool) (valid1 : Nat → Bool) : Str → Option (Nat × Str)
  | a :: b :: rest =>
    if isDigit a && isDigit b && valid2 (10 * dval a + dval b) then
      some (10 * dval a + dval b, rest)
    else if isDigit a && valid1 (dval a) then some (dval a, b :: rest)
    else none
  | [a] => if isDigit a && valid1 (dval a) then some (dval a, []) else none
  | [] => none

/-- A required literal character. -/
def expectChar (c : Char) : Str → Option Str
  | x :: rest => if x = c then some rest else none
  | [] => none

/-- A run of one or more whitespace characters: strptime compiles any
whitespace in the format string into a whitespace-plus regex, so the
format's literal space accepts such a run.  Consuming the whole run is
equivalent to the greedy regex here because the token after it only
matches non-whitespace. -/
def parseSpaces : Str → Option Str
  | c :: rest => if isSpace c then some (rest.dropWhile isSpace) else none
  | [] => none

/-- datetime.strptime against the fixed format year-month-day hour:minute:
the field values when the whole string matches and the date is a valid
datetime, none otherwise (strptime raises ValueError).  The format's space
matches a run of whitespace; digit classes are modelled as the ASCII digits
(CPython's regex digit class additionally accepts other Unicode decimal
digits, which are outside this model). -/
def strptimeFields (s : Str) : Option (Nat × Nat × Nat × Nat × Nat) :=
  (parse4Y s).bind (fun p1 =>
  (expectChar '-' p1.2).bind (fun r2 =>
  (parse21 (fun v => decide (1 ≤ v ∧ v ≤ 12)) (fun v => decide (1 ≤ v ∧ v ≤ 9)) r2).bind (fun p2 =>
  (expectChar '-' p2.2).bind (fun r4 =>
  (parse21 (fun v => decide (1 ≤ v ∧ v ≤ 31)) (fun v => decide (1 ≤ v ∧ v ≤ 9)) r4).bind (fun p3 =>
  (parseSpaces p3.2).bind (fun r6 =>
  (parse21 (fun v => decide (v ≤ 23)) (fun _ => true) r6).bind (fun p4 =>
  (expectChar ':' p4.2).bind (fun r8 =>
  (parse21 (fun v => decide (v ≤ 59)) (fun _ => true) r8).bind (fun p5 =>
  if p5.2 = [] ∧ 1 ≤ p1.1 ∧ p3.1 ≤ daysInMonth p1.1 p2.1 then
    some (p1.1, p2.1, p3.1, p4.1, p5.1)
  else none)))))))))

/-- Day count of a Gregorian calendar date, measured from a fixed origin;
the standard civil-from-days computation. -/
def daysFromCivil (y m d : Nat) : Nat :=
  let y2 := if m ≤ 2 then y - 1 else y
  let era := y2 / 400
  let yoe := y2 - era * 400
  let mp := (m + 9) % 12
  let doy := (153 * mp + 2) / 5 + d - 1
  let doe := yoe * 365 + yoe / 4 - yoe / 100 + doy
  era * 146097 + doe

/-- A parsed created_at timestamp as an absolute minute count: datetime
objects compare and subtract like these totals do. -/
def strptimeMin (s : Str) : Option Int :=
  (strptimeFields s).map (fun f =>
    ((daysFromCivil f.1 f.2.1 f.2.2.1 : Int) * 1440 + f.2.2.2.1 * 60 + f.2.2.2.2))

/-- The two ways QuickDo.report stops without a result: the unsupported
period message, and the ValueError raised out of strptime during the scan. -/
inductive ReportErr where
  | unsupportedPeriod : ReportErr
  | parseError : ReportErr
  deriving DecidableEq, Repr

/-- One update of the category dictionary: increment the entry, inserting it
at the end on first appearance (dict insertion order). -/
def bumpCat : List (Str × Nat) → Str → List (Str × Nat)
  | [], c => [(c, 1)]
  | (k, n) :: rest, c =>
    if k = c then (k, n + 1) :: rest else (k, n) :: bumpCat rest c

/-- Lookup in the category dictionary, zero when absent. -/
def catCount : List (Str × Nat) → Str → Nat
  | [], _ => 0
  | (k, n) :: rest, c => if k = c then n else catCount rest c

/-- The aggregation loop of QuickDo.report: every record's created_at is
parsed (a failure raises immediately); records on or after the window start
bump the completed or remaining counter and their category's tally. -/
def reportScan (start : Int) : List Task → Nat → Nat → List (Str × Nat) →
    Except ReportErr (Nat × Nat × List (Str × Nat))
  | [], comp, rem, cats => .ok (comp, rem, cats)
  | t :: ts, comp, rem, cats =>
    match strptimeMin t.created_at with
    | none => .error .parseError
    | some m =>
      if start ≤ m then
        reportScan start ts (if t.completed then comp + 1 else comp)
          (if t.completed then rem else rem + 1) (bumpCat cats t.category)
      else reportScan start ts comp rem cats

/-- QuickDo.report: the window start is now minus seven days for week and
one day for day (checked in that order); any other period prints the
unsupported-period message and produces no output. -/
def report (tasks : List Task) (nowMin : Int) (period : Str) :
    Except ReportErr (Nat × Nat × List (Str × Nat)) :=
  if period = "week".toList then reportScan (nowMin - 7 * 1440) tasks 0 0 []
  else if period = "day".toList then reportScan (nowMin - 1440) tasks 0 0 []
  else .error .unsupportedPeriod

/-- Whether a record's created_at parses to a time on or after the window
start (false also when it does not parse at all). -/
def inWindow (start : Int) (t : Task) : Bool :=
  match strptimeMin t.created_at with
  | some m => decide (start ≤ m)
  | none => false

/-! ### Concrete sample records used by witnesses and counterexamples -/

def sampleDue : Task :=
  { title := "Buy milk".toList, due_date := some ("2025-01-10".toList),
    priority := "high".toList, category := "errand".toList,
    completed := false, created_at := "2025-01-09 12:00".toList }

def C1badTask : Task :=
  { title := "due:x".toList, due_date := none, priority := "medium".toList,
    category := "personal".toList, completed := false,
    created_at := "2025-01-01 00:00".toList }

def C2dueTask : Task :=
  { title := "call mom".toList, due_date := some ("2025-02-01".toList),
    priority := "medium".toList, category := "family".toList,
    completed := false, created_at := "2025-01-15 09:30".toList }

def C2noDueTask : Task :=
  { title := "pay due:tomorrow".toList, due_date := none,
    priority := "low".toList, category := "bills".toList,
    completed := false, created_at := "2025-01-02 08:00".toList }

def C4doneTask : Task :=
  { title := "ship release".toList, due_date := none, priority := "high".toList,
    category := "work".toList, completed := true,
    created_at := "2025-03-01 10:00".toList }

def C4activeTask : Task :=
  { title := "write notes".toList, due_date := none, priority := "high".toList,
    category := "work".toList, completed := false,
    created_at := "2025-03-02 11:00".toList }

def C5task : Task :=
  { title := "water plants".toList, due_date := none, priority := "low".toList,
    category := "home".toList, completed := false,
    created_at := "2025-04-01 07:00".toList }

def C6badLine : Str := "not a task line".toList

def C6goodLine : Str := "-|2025-05-01 10:00|medium|personal|read a book".toList

def C7oldTask : Task :=
  { title := "old chore".toList, due_date := none, priority := "low".toList,
    category := "home".toList, completed := true,
    created_at := "2025-06-13 12:00".toList }

def C7recentTask : Task :=
  { title := "fresh chore".toList, due_date := none, priority := "high".toList,
    category := "work".toList, completed := false,
    created_at := "2025-06-15 11:00".toList }

/-- The minute count of 2025-06-15 12:00, the "now" of the C7 witness. -/
def C7now : Int := (strptimeMin ("2025-06-15 12:00".toList)).getD 0

def C8badTask : Task :=
  { title := "a|b ".toList, due_date := none, priority := "medium".toList,
    category := "personal".toList, completed := false,
    created_at := "2025-07-01 12:00".toList }

def C8okTask : Task :=
  { title := "milk|eggs|bread".toList, due_date := some ("2025-08-01".toList),
    priority := "high".toList, category := "errand".toList,
    completed := false, created_at := "2025-07-15 18:45".toList }

def C9doneTask : Task :=
  { title := "done thing".toList, due_date := none, priority := "medium".toList,
    category := "personal".toList, completed := true,
    created_at := "2025-09-01 09:00".toList }

def C9activeTask : Task :=
  { title := "open thing".toList, due_date := none, priority := "medium".toList,
    category := "personal".toList, completed := false,
    created_at := "2025-09-01 09:05".toList }

def C10badTask : Task :=
  { title := "mystery".toList, due_date := none, priority := "low".toList,
    category := "misc".toList, completed := false,
    created_at := "yesterday evening".toList }

def C10goodTask : Task :=
  { title := "solid".toList, due_date := none, priority := "low".toList,
    category := "misc".toList, completed := false,
    created_at := "2025-10-01 08:00".toList }

/-! ### String lemmas -/

lemma strip_eq_self {s : Str}
    (h1 : s.head?.all (fun c => !isSpace c) = true)
    (h2 : s.getLast?.all (fun c => !isSpace c) = true) : strip s = s := by
  have hl : lstrip s = s := by
    cases s with
    | nil => rfl
    | cons c t =>
      simp only [List.head?_cons, Option.all_some, Bool.not_eq_true'] at h1
      simp [lstrip, List.dropWhile_cons, h1]
  rw [strip, hl]
  cases hrev : s.reverse with
  | nil =>
    have : s = [] := by simpa using congrArg List.reverse hrev
    subst this; rfl
  | cons c t =>
    have hg : s.getLast? = some c := by
      rw [List.getLast?_eq_head?_reverse, hrev, List.head?_cons]
    rw [hg, Option.all_some, Bool.not_eq_true'] at h2
    have hs : s = (c :: t).reverse := by simpa using congrArg List.reverse hrev
    simp [List.dropWhile_cons, h2, hs]

lemma strip_of_forall_nonspace {s : Str} (h : ∀ c ∈ s, isSpace c = false) :
    strip s = s := by
  apply strip_eq_self
  · cases s with
    | nil => rfl
    | cons c t =>
      simp only [List.head?_cons, Option.all_some, Bool.not_eq_true']
      exact h c (List.mem_cons_self c t)
  · cases hg : s.getLast? with
    | none => rfl
    | some c =>
      simp only [Option.all_some, Bool.not_eq_true']
      exact h c (List.mem_of_getLast?_eq_some hg)

lemma rstrip_concat_space (x : Str) :
    ((x ++ [' ']).reverse.dropWhile isSpace).reverse =
      (x.reverse.dropWhile isSpace).reverse := by
  rw [List.reverse_append]
  have hs : isSpace ' ' = true := by decide
  simp [List.dropWhile_cons, hs]

lemma strip_concat_space (x : Str) : strip (x ++ [' ']) = strip x := by
  rw [strip, strip, lstrip, lstrip, List.dropWhile_append]
  by_cases h : (x.dropWhile isSpace).isEmpty
  · rw [if_pos h]
    have h1 : x.dropWhile isSpace = [] := by simpa using h
    have h2 : ([' '] : Str).dropWhile isSpace = [] := by decide
    rw [h1, h2]
  · rw [if_neg h]
    exact rstrip_concat_space (x.dropWhile isSpace)

/-! ### splitPipe and joinPipe lemmas -/

lemma splitPipe_ne_nil (s : Str) : splitPipe s ≠ [] := by
  induction s with
  | nil => simp [splitPipe]
  | cons c rest ih =>
    rw [splitPipe]
    by_cases h : c = '|'
    · simp [h]
    · rw [if_neg h]
      cases hsp : splitPipe rest with
      | nil => exact absurd hsp ih
      | cons a l => simp [List.modifyHead]

lemma splitPipe_append_pipe {a : Str} (r : Str) (h : '|' ∉ a) :
    splitPipe (a ++ '|' :: r) = a :: splitPipe r := by
  induction a with
  | nil => simp [splitPipe]
  | cons c a' ih =>
    have hc : c ≠ '|' := fun hc => h (hc ▸ List.mem_cons_self c a')
    have ha : '|' ∉ a' := fun hm => h (List.mem_cons_of_mem c hm)
    rw [List.cons_append, splitPipe, if_neg hc, ih ha]
    rfl

lemma joinPipe_splitPipe (s : Str) : joinPipe (splitPipe s) = s := by
  induction s with
  | nil => rfl
  | cons c rest ih =>
    rw [splitPipe]
    by_cases h : c = '|'
    · rw [if_pos h]
      cases hsp : splitPipe rest with
      | nil => exact absurd hsp (splitPipe_ne_nil rest)
      | cons a l =>
        rw [hsp] at ih
        subst h
        simp [joinPipe, ih]
    · rw [if_neg h]
      cases hsp : splitPipe rest with
      | nil => exact absurd hsp (splitPipe_ne_nil rest)
      | cons a l =>
        rw [hsp] at ih
        cases l with
        | nil => simpa [List.modifyHead, joinPipe] using congrArg (fun s => c :: s) ih
        | cons b l' =>
          simp only [List.modifyHead, joinPipe] at ih ⊢
          rw [List.cons_append, ih]

/-! ### Due-token search lemmas -/

lemma takeNonSpace_eq_self {d : Str} (h : ∀ c ∈ d, isSpace c = false) :
    takeNonSpace d = d := by
  rw [takeNonSpace, List.takeWhile_eq_self_iff]
  intro x hx
  simp [h x hx]

lemma takeNonSpace_append_nil {x : Str} (zs : Str) (h : takeNonSpace x = []) :
    takeNonSpace (x ++ ' ' :: zs) = [] := by
  cases x with
  | nil =>
    have hs : isSpace ' ' = true := by decide
    simp [takeNonSpace, List.takeWhile_cons, hs]
  | cons c t =>
    simp only [takeNonSpace, List.takeWhile_cons] at h ⊢
    cases hc : (!isSpace c) with
    | true => rw [hc] at h; simp at h
    | false => simp [List.cons_append, List.takeWhile_cons, hc]

lemma dueAt_append_space (s zs : Str) (h : dueAt s = none) :
    dueAt (s ++ ' ' :: zs) = none := by
  rcases s with _ | ⟨a, _ | ⟨b, _ | ⟨c, _ | ⟨e, t⟩⟩⟩⟩
  · rcases zs with _ | ⟨z1, _ | ⟨z2, _ | ⟨z3, t3⟩⟩⟩ <;> simp [dueAt]
  · rcases zs with _ | ⟨z1, _ | ⟨z2, t2⟩⟩ <;> simp [dueAt]
  · rcases zs with _ | ⟨z1, t1⟩ <;> simp [dueAt]
  · simp [dueAt]
  · simp only [List.cons_append]
    simp only [dueAt] at h ⊢
    by_cases h4 : a = 'd' ∧ b = 'u' ∧ c = 'e' ∧ e = ':'
    · obtain ⟨ha, hb, hc, he⟩ := h4
      subst ha; subst hb; subst hc; subst he
      by_cases ht : takeNonSpace t = []
      · rw [takeNonSpace_append_nil zs ht]
        simp
      · simp [ht] at h
    · rw [if_neg (by tauto)]

lemma findDue_append_due (title d : Str) (h : findDue title = none)
    (hd : d ≠ []) (hns : ∀ c ∈ d, isSpace c = false) :
    findDue (title ++ ' ' :: 'd' :: 'u' :: 'e' :: ':' :: d) =
      some (title ++ [' '], d) := by
  induction title with
  | nil =>
    rw [List.nil_append, findDue]
    have hsp : dueAt (' ' :: 'd' :: 'u' :: 'e' :: ':' :: d) = none := by
      simp [dueAt]
    rw [hsp, findDue]
    have hdm : dueAt ('d' :: 'u' :: 'e' :: ':' :: d) = some d := by
      simp only [dueAt, takeNonSpace_eq_self hns]
      simp [hd]
    rw [hdm]
    rfl
  | cons c rest ih =>
    rw [findDue] at h
    cases hda : dueAt (c :: rest) with
    | some g => rw [hda] at h; exact absurd h (by simp)
    | none =>
      rw [hda] at h
      have hrest : findDue rest = none := by
        cases hfr : findDue rest with
        | none => rfl
        | some p => rw [hfr] at h; exact absurd h (by simp)
      rw [List.cons_append, findDue]
      have hda2 : dueAt (c :: (rest ++ ' ' :: 'd' :: 'u' :: 'e' :: ':' :: d)) = none := by
        have := dueAt_append_space (c :: rest) ('d' :: 'u' :: 'e' :: ':' :: d) hda
        simpa using this
      rw [hda2, ih hrest]
      rfl

lemma findDue_append_isSome (xs ys : Str) (h : (findDue ys).isSome = true) :
    (findDue (xs ++ ys)).isSome = true := by
  induction xs with
  | nil => simpa using h
  | cons c rest ih =>
    rw [List.cons_append, findDue]
    cases hda : dueAt (c :: (rest ++ ys)) with
    | some g => rfl
    | none => simpa using ih

/-! ### The codec round trip -/

/-- Decoding an encoded record recovers it exactly, provided the title has
no leading or trailing whitespace and contains no due-token match, the
created_at, priority and category fields contain no bar character, and the
due date, when present, is non-empty and whitespace-free. -/
theorem from_string_to_string (t : Task)
    (h1 : t.title.head?.all (fun c => !isSpace c) = true)
    (h2 : t.title.getLast?.all (fun c => !isSpace c) = true)
    (h3 : findDue t.title = none)
    (h4 : '|' ∉ t.created_at) (h5 : '|' ∉ t.priority) (h6 : '|' ∉ t.category)
    (h7 : t.due_date.all (fun d => !d.isEmpty && d.all (fun c => !isSpace c)) = true) :
    Task.from_string (Task.to_string t) = some t := by
  have hmkpipe : '|' ∉ (if t.completed then ['+'] else ['-'] : Str) := by
    cases t.completed <;> decide
  have hmkeq : ((if t.completed then ['+'] else ['-'] : Str) == ['+']) = t.completed := by
    cases t.completed <;> rfl
  have hhead : (Task.to_string t).head?.all (fun c => !isSpace c) = true := by
    rw [Task.to_string]
    cases t.completed <;> simp [List.singleton_append, Option.all_some] <;> decide
  have hlast : (Task.to_string t).getLast?.all (fun c => !isSpace c) = true := by
    cases hdd : t.due_date with
    | some d =>
      rw [hdd, Option.all_some, Bool.and_eq_true] at h7
      have hne : d ≠ [] := by simpa using h7.1
      have hns : ∀ c ∈ d, isSpace c = false := by
        intro c hc
        have := List.all_eq_true.mp h7.2 c hc
        simpa using this
      have hform : Task.to_string t =
          ((if t.completed then ['+'] else ['-']) ++ '|' :: (t.created_at ++
            '|' :: (t.priority ++ '|' :: (t.category ++
              '|' :: (t.title ++ [' ', 'd', 'u', 'e', ':']))))) ++ d := by
        rw [Task.to_string]
        simp only [dueStr, hdd]
        rw [if_neg hne]
        simp [List.append_assoc]
      rw [hform, List.getLast?_append_of_ne_nil _ hne]
      cases hg : d.getLast? with
      | none =>
        have : d = [] := by simpa using hg
        exact absurd this hne
      | some c =>
        rw [Option.all_some, Bool.not_eq_true']
        exact hns c (List.mem_of_getLast?_eq_some hg)
    | none =>
      have hform : Task.to_string t =
          ((if t.completed then ['+'] else ['-']) ++ '|' :: (t.created_at ++
            '|' :: (t.priority ++ '|' :: (t.category ++ ['|'])))) ++ t.title := by
        rw [Task.to_string]
        simp only [dueStr, hdd]
        simp [List.append_assoc]
      rw [hform]
      by_cases htt : t.title = []
      · rw [htt, List.append_nil]
        have hform2 : ((if t.completed then ['+'] else ['-']) ++ '|' :: (t.created_at ++
            '|' :: (t.priority ++ '|' :: (t.category ++ ['|'])))) =
            ((if t.completed then ['+'] else ['-']) ++ '|' :: (t.created_at ++
              '|' :: (t.priority ++ '|' :: t.category))) ++ ['|'] := by
          simp [List.append_assoc]
        rw [hform2, List.getLast?_concat]
        decide
      · rw [List.getLast?_append_of_ne_nil _ htt]
        exact h2
  have hstrip : strip (Task.to_string t) = Task.to_string t := strip_eq_self hhead hlast
  have hsplit : splitPipe (Task.to_string t) =
      (if t.completed then ['+'] else ['-']) :: t.created_at :: t.priority ::
        t.category :: splitPipe (t.title ++ dueStr t) := by
    rw [Task.to_string, splitPipe_append_pipe _ hmkpipe, splitPipe_append_pipe _ h4,
        splitPipe_append_pipe _ h5, splitPipe_append_pipe _ h6]
  rw [Task.from_string, hstrip, hsplit]
  dsimp only
  rw [joinPipe_splitPipe]
  cases hdd : t.due_date with
  | none =>
    have htail : t.title ++ dueStr t = t.title := by
      simp only [dueStr, hdd, List.append_nil]
    rw [htail, h3]
    dsimp only
    rw [strip_eq_self h1 h2, hmkeq, ← hdd]
  | some d =>
    rw [hdd, Option.all_some, Bool.and_eq_true] at h7
    have hne : d ≠ [] := by simpa using h7.1
    have hns : ∀ c ∈ d, isSpace c = false := by
      intro c hc
      have := List.all_eq_true.mp h7.2 c hc
      simpa using this
    have htail : t.title ++ dueStr t = t.title ++ ' ' :: 'd' :: 'u' :: 'e' :: ':' :: d := by
      simp only [dueStr, hdd]
      rw [if_neg hne]
    rw [htail, findDue_append_due t.title d h3 hne hns]
    dsimp only
    rw [strip_concat_space, strip_eq_self h1 h2, hmkeq, ← hdd]

/-! ### Decimal parsing lemmas -/

lemma digitVal_digitChar {d : Nat} (h : d < 10) : digitVal (digitChar d) = some d := by
  interval_cases d <;> rfl

lemma isDigit_digitChar {d : Nat} (h : d < 10) : isDigit (digitChar d) = true := by
  interval_cases d <;> rfl

lemma isSpace_eq_false_of_isDigit {c : Char} (h : isDigit c = true) : isSpace c = false := by
  rw [isDigit, decide_eq_true_eq] at h
  rw [isSpace, decide_eq_false_iff_not]
  omega

lemma ne_minus_of_isDigit {c : Char} (h : isDigit c = true) : c ≠ '-' := by
  rintro rfl
  exact absurd h (by decide)

lemma ne_plus_of_isDigit {c : Char} (h : isDigit c = true) : c ≠ '+' := by
  rintro rfl
  exact absurd h (by decide)

lemma natRepr_lt {n : Nat} (h : n < 10) : natRepr n = [digitChar n] := by
  rw [natRepr, if_pos h]

lemma natRepr_ge {n : Nat} (h : 10 ≤ n) :
    natRepr n = natRepr (n / 10) ++ [digitChar (n % 10)] := by
  rw [natRepr, if_neg (by omega)]

lemma natRepr_all_digit (n : Nat) : ∀ c ∈ natRepr n, isDigit c = true := by
  induction n using Nat.strong_induction_on with
  | _ n ih =>
    by_cases h : n < 10
    · rw [natRepr_lt h]
      intro c hc
      rw [List.mem_singleton] at hc
      subst hc
      exact isDigit_digitChar h
    · rw [natRepr_ge (by omega)]
      intro c hc
      rcases List.mem_append.mp hc with hc1 | hc2
      · exact ih (n / 10) (Nat.div_lt_self (by omega) (by omega)) c hc1
      · rw [List.mem_singleton] at hc2
        subst hc2
        exact isDigit_digitChar (Nat.mod_lt n (by omega))

lemma natRepr_ne_nil (n : Nat) : natRepr n ≠ [] := by
  by_cases h : n < 10
  · rw [natRepr_lt h]
    simp
  · rw [natRepr_ge (by omega)]
    simp

lemma parseDigitsAux_append (acc : Nat) (xs ys : Str) :
    parseDigitsAux acc (xs ++ ys) =
      (parseDigitsAux acc xs).bind (fun v => parseDigitsAux v ys) := by
  induction xs generalizing acc with
  | nil => rfl
  | cons c cs ih =>
    simp only [List.cons_append, parseDigitsAux]
    cases hd : digitVal c with
    | some d => simp [ih]
    | none => simp

lemma parseDigitsAux_natRepr (n : Nat) : parseDigitsAux 0 (natRepr n) = some n := by
  induction n using Nat.strong_induction_on with
  | _ n ih =>
    by_cases h : n < 10
    · rw [natRepr_lt h]
      simp [parseDigitsAux, digitVal_digitChar h]
    · have h10 : 10 ≤ n := by omega
      rw [natRepr_ge h10, parseDigitsAux_append]
      rw [ih (n / 10) (Nat.div_lt_self (by omega) (by omega))]
      simp [parseDigitsAux, digitVal_digitChar (Nat.mod_lt n (by omega))]
      omega

lemma pyInt_natRepr (n : Nat) : pyInt (natRepr n) = some (n : Int) := by
  have hall := natRepr_all_digit n
  have hst : strip (natRepr n) = natRepr n :=
    strip_of_forall_nonspace (fun c hc => isSpace_eq_false_of_isDigit (hall c hc))
  have hhd : ∀ x : Char, (natRepr n).head? = some x → isDigit x = true := by
    intro x hx
    cases hrep : natRepr n with
    | nil => rw [hrep] at hx; exact absurd hx (by simp)
    | cons c cs =>
      rw [hrep, List.head?_cons, Option.some_inj] at hx
      rw [← hx]
      exact hall c (hrep ▸ List.mem_cons_self c cs)
  rw [pyInt, hst]
  rw [if_neg (natRepr_ne_nil n)]
  rw [if_neg (fun hm => ne_minus_of_isDigit (hhd '-' hm) rfl)]
  rw [if_neg (fun hp => ne_plus_of_isDigit (hhd '+' hp) rfl)]
  rw [parseDigitsAux_natRepr n]
  rfl

lemma parse_delay_concat (x : Str) (u : Char) (v : Int) (hx : pyInt x = some v) :
    parse_delay (x ++ [u]) = some (v * (if u.toLower = 'm' then 60
      else if u.toLower = 'h' then 3600
      else if u.toLower = 'd' then 86400 else 60)) := by
  rw [parse_delay, List.getLast?_concat]
  dsimp only
  rw [List.dropLast_concat, hx]

lemma digitChar_mult {k : Nat} (hk : k < 10) :
    (if (digitChar k).toLower = 'm' then (60 : Int)
     else if (digitChar k).toLower = 'h' then 3600
     else if (digitChar k).toLower = 'd' then 86400 else 60) = 60 := by
  interval_cases k <;> decide

/-! ### Store lemmas -/

lemma from_string_of_strip_nil {l : Str} (h : strip l = []) :
    Task.from_string l = none := by
  rw [Task.from_string, h]
  rfl

lemma from_string_short {l : Str} (h : (splitPipe (strip l)).length < 4) :
    Task.from_string l = none := by
  rw [Task.from_string]
  rcases hsp : splitPipe (strip l) with _ | ⟨a, _ | ⟨b, _ | ⟨c, _ | ⟨d, rest⟩⟩⟩⟩
  · rfl
  · rfl
  · rfl
  · rfl
  · rw [hsp] at h
    simp at h
    omega

lemma from_string_long {l : Str} (h : 4 ≤ (splitPipe (strip l)).length) :
    ∃ t, Task.from_string l = some t := by
  rw [Task.from_string]
  rcases hsp : splitPipe (strip l) with _ | ⟨a, _ | ⟨b, _ | ⟨c, _ | ⟨d, rest⟩⟩⟩⟩
  · rw [hsp] at h; simp at h
  · rw [hsp] at h; simp at h
  · rw [hsp] at h; simp at h
  · rw [hsp] at h; simp at h
  · dsimp only
    cases hfd : findDue (joinPipe rest) with
    | some p => exact ⟨_, rfl⟩
    | none => exact ⟨_, rfl⟩

lemma load_tasks_append (a b : List Str) :
    load_tasks (a ++ b) = load_tasks a ++ load_tasks b := by
  simp [load_tasks, List.filterMap_append]

lemma load_tasks_cons_none (l : Str) (h : Task.from_string l = none) (rest : List Str) :
    load_tasks (l :: rest) = load_tasks rest := by
  rw [load_tasks, List.filterMap_cons]
  by_cases hb : strip l = []
  · simp [hb, load_tasks]
  · simp [hb, h, load_tasks]

lemma load_tasks_cons_some (l : Str) (t : Task) (h : Task.from_string l = some t)
    (rest : List Str) : load_tasks (l :: rest) = t :: load_tasks rest := by
  have hb : strip l ≠ [] := by
    intro hs
    rw [from_string_of_strip_nil hs] at h
    cases h
  rw [load_tasks, List.filterMap_cons]
  simp [hb, h, load_tasks]

lemma setCompletedAt_getElem_self (ts : List Task) (k : Nat) :
    (setCompletedAt ts k)[k]? = ts[k]?.map (fun t => { t with completed := true }) := by
  induction ts generalizing k with
  | nil => simp [setCompletedAt]
  | cons t ts ih =>
    cases k with
    | zero => simp [setCompletedAt]
    | succ k => simpa [setCompletedAt] using ih k

lemma setCompletedAt_getElem_other (ts : List Task) (k i : Nat) (h : i ≠ k) :
    (setCompletedAt ts k)[i]? = ts[i]? := by
  induction ts generalizing k i with
  | nil => simp [setCompletedAt]
  | cons t ts ih =>
    cases k with
    | zero =>
      cases i with
      | zero => exact absurd rfl h
      | succ i => simp [setCompletedAt]
    | succ k =>
      cases i with
      | zero => simp [setCompletedAt]
      | succ i => simpa [setCompletedAt] using ih k i (by omega)

lemma mem_numberTasks (ts : List Task) (n i : Nat) (t : Task) :
    (i, t) ∈ numberTasks n ts ↔ n ≤ i ∧ ts[i - n]? = some t := by
  induction ts generalizing n with
  | nil => simp [numberTasks]
  | cons t' ts ih =>
    rw [numberTasks]
    simp only [List.mem_cons]
    constructor
    · rintro (heq | hmem)
      · have hi : i = n := congrArg Prod.fst heq
        have ht : t = t' := congrArg Prod.snd heq
        subst hi; subst ht
        exact ⟨Nat.le_refl _, by simp⟩
      · obtain ⟨hle, hget⟩ := (ih (n + 1)).mp hmem
        refine ⟨by omega, ?_⟩
        have hidx : i - n = (i - (n + 1)) + 1 := by omega
        rw [hidx, List.getElem?_cons_succ]
        exact hget
    · rintro ⟨hle, hget⟩
      rcases Nat.eq_or_lt_of_le hle with heq | hlt
      · subst heq
        rw [Nat.sub_self, List.getElem?_cons_zero, Option.some_inj] at hget
        subst hget
        exact Or.inl rfl
      · right
        apply (ih (n + 1)).mpr
        refine ⟨by omega, ?_⟩
        have hidx : i - n = (i - (n + 1)) + 1 := by omega
        rw [hidx, List.getElem?_cons_succ] at hget
        exact hget

/-! ### Report lemmas -/

lemma catCount_bumpCat (cats : List (Str × Nat)) (c c2 : Str) :
    catCount (bumpCat cats c2) c =
      if c2 = c then catCount cats c + 1 else catCount cats c := by
  induction cats with
  | nil => by_cases h : c2 = c <;> simp [bumpCat, catCount, h]
  | cons p rest ih =>
    obtain ⟨k, m⟩ := p
    by_cases hk : k = c2
    · subst hk
      by_cases hc : k = c
      · subst hc
        simp [bumpCat, catCount]
      · simp [bumpCat, catCount, hc]
    · by_cases hkc : k = c
      · subst hkc
        have hc2 : c2 ≠ k := fun hh => hk hh.symm
        simp [bumpCat, catCount, hk, hc2]
      · simp [bumpCat, catCount, hk, hkc, ih]

lemma catCount_foldl (l : List Task) (cats : List (Str × Nat)) (c : Str) :
    catCount (l.foldl (fun acc t => bumpCat acc t.category) cats) c =
      catCount cats c + (l.filter (fun t => t.category == c)).length := by
  induction l generalizing cats with
  | nil => simp
  | cons t ts ih =>
    rw [List.foldl_cons, ih, catCount_bumpCat]
    by_cases h : t.category = c
    · simp [List.filter_cons, h]
      omega
    · simp [List.filter_cons, h]

lemma reportScan_ok (start : Int) (ts : List Task) :
    ∀ (comp rem : Nat) (cats : List (Str × Nat)),
      (∀ t ∈ ts, (strptimeMin t.created_at).isSome = true) →
      reportScan start ts comp rem cats = .ok
        (comp + (ts.filter (fun t => inWindow start t && t.completed)).length,
         rem + (ts.filter (fun t => inWindow start t && !t.completed)).length,
         (ts.filter (fun t => inWindow start t)).foldl
           (fun acc t => bumpCat acc t.category) cats) := by
  induction ts with
  | nil =>
    intro comp rem cats _
    simp [reportScan]
  | cons t ts ih =>
    intro comp rem cats hparse
    obtain ⟨m, hm⟩ := Option.isSome_iff_exists.mp (hparse t (List.mem_cons_self t ts))
    have hrec := ih (if t.completed then comp + 1 else comp)
      (if t.completed then rem else rem + 1) (bumpCat cats t.category)
      (fun t' ht' => hparse t' (List.mem_cons_of_mem t ht'))
    have hrec2 := ih comp rem cats
      (fun t' ht' => hparse t' (List.mem_cons_of_mem t ht'))
    rw [reportScan, hm]
    dsimp only
    by_cases hle : start ≤ m
    · rw [if_pos hle, hrec]
      have hw : inWindow start t = true := by
        rw [inWindow, hm]
        exact decide_eq_true hle
      cases htc : t.completed <;>
        simp [List.filter_cons, hw, htc, List.foldl_cons, Prod.mk.injEq] <;>
        omega
    · rw [if_neg hle, hrec2]
      have hw : inWindow start t = false := by
        rw [inWindow, hm]
        simpa using hle
      simp [List.filter_cons, hw]

lemma reportScan_err (start : Int) (ts : List Task) :
    ∀ (comp rem : Nat) (cats : List (Str × Nat)),
      (∃ t ∈ ts, strptimeMin t.created_at = none) →
      reportScan start ts comp rem cats = .error .parseError := by
  induction ts with
  | nil =>
    rintro comp rem cats ⟨t, ht, -⟩
    exact absurd ht (List.not_mem_nil t)
  | cons t ts ih =>
    rintro comp rem cats ⟨t', ht', hbad⟩
    rw [reportScan]
    cases hm : strptimeMin t.created_at with
    | none => rfl
    | some m =>
      have ht'' : t' ∈ ts := by
        rcases List.mem_cons.mp ht' with rfl | hmem
        · rw [hbad] at hm
          cases hm
        · exact hmem
      dsimp only
      by_cases hle : start ≤ m
      · rw [if_pos hle]
        exact ih _ _ _ ⟨t', ht'', hbad⟩
      · rw [if_neg hle]
        exact ih _ _ _ ⟨t', ht'', hbad⟩

/-! ### Claims -/

/-- C1, counterexample: the record with title due:x and no due date does not
round-trip: the decoder extracts a due token out of the title text, so the
claim that every valid record satisfies Decode(Encode(R)) = R is false. -/
theorem C1_cex : Task.from_string (Task.to_string C1badTask) ≠ some C1badTask := by
  decide

/-- C1, amended: Decode(Encode(R)) = R holds for every record whose title
has no leading or trailing whitespace and contains no due-token match, whose
created_at, priority and category contain no bar character, and whose
due_date, when present, is non-empty and whitespace-free. -/
theorem C1_round_trip (t : Task)
    (h1 : t.title.head?.all (fun c => !isSpace c) = true)
    (h2 : t.title.getLast?.all (fun c => !isSpace c) = true)
    (h3 : findDue t.title = none)
    (h4 : '|' ∉ t.created_at) (h5 : '|' ∉ t.priority) (h6 : '|' ∉ t.category)
    (h7 : t.due_date.all (fun d => !d.isEmpty && d.all (fun c => !isSpace c)) = true) :
    Task.from_string (Task.to_string t) = some t :=
  from_string_to_string t h1 h2 h3 h4 h5 h6 h7

/-- C1 witness: the spec's own example record round-trips. -/
theorem C1_round_trip_witness :
    Task.from_string (Task.to_string sampleDue) = some sampleDue :=
  C1_round_trip sampleDue (by decide) (by decide) (by decide) (by decide)
    (by decide) (by decide) (by decide)

/-- C2, counterexample: a record with due_date unset whose title contains a
due token yields an encoded line containing a due token, so the claimed
equivalence between the token's presence and due_date being set is false. -/
theorem C2_cex :
    C2noDueTask.due_date = none ∧ containsDue (Task.to_string C2noDueTask) = true := by
  decide

/-- C2, amended: the encoder appends the space-separated due token directly
after the title exactly when due_date is set and non-empty (and the line
then contains a due-token match whenever the date is whitespace-free); with
due_date unset or empty nothing is appended, though the line may still
contain a due token coming from the title itself. -/
theorem C2_due_token (t : Task) :
    (t.due_date = none ∨ t.due_date = some [] →
      Task.to_string t = encodeHead t ++ t.title) ∧
    (∀ d : Str, t.due_date = some d → d ≠ [] →
      Task.to_string t = encodeHead t ++ t.title ++ ' ' :: 'd' :: 'u' :: 'e' :: ':' :: d ∧
      ((∀ c ∈ d, isSpace c = false) → containsDue (Task.to_string t) = true)) := by
  constructor
  · intro hd
    rw [Task.to_string, encodeHead]
    rcases hd with hd | hd <;> simp [dueStr, hd, List.append_assoc]
  · intro d hd hne
    have hform : Task.to_string t =
        encodeHead t ++ t.title ++ ' ' :: 'd' :: 'u' :: 'e' :: ':' :: d := by
      rw [Task.to_string, encodeHead]
      simp only [dueStr, hd]
      rw [if_neg hne]
      simp [List.append_assoc]
    refine ⟨hform, fun hns => ?_⟩
    rw [containsDue, hform]
    apply findDue_append_isSome
    rw [findDue]
    have hsp : dueAt (' ' :: 'd' :: 'u' :: 'e' :: ':' :: d) = none := by
      simp [dueAt]
    rw [hsp, findDue]
    have hdm : dueAt ('d' :: 'u' :: 'e' :: ':' :: d) = some (takeNonSpace d) := by
      have hts : takeNonSpace d ≠ [] := by
        rw [takeNonSpace_eq_self hns]
        exact hne
      simp [dueAt, hts]
    rw [hdm]
    rfl

/-- C2 witness: a concrete record with a due date emits the token right
after its title, and the encoded line contains a due-token match. -/
theorem C2_due_token_witness :
    Task.to_string C2dueTask = encodeHead C2dueTask ++ C2dueTask.title ++
      ' ' :: 'd' :: 'u' :: 'e' :: ':' :: ("2025-02-01".toList) ∧
    containsDue (Task.to_string C2dueTask) = true := by
  have h := (C2_due_token C2dueTask).2 ("2025-02-01".toList) (by decide) (by decide)
  exact ⟨h.1, h.2 (by decide)⟩

/-- C3, counterexample: the bare delay string 30 parses to 180 seconds
(3 minutes), not the 1800 seconds (30 minutes) the claim requires: the last
digit is consumed as the unit character. -/
theorem C3_cex :
    parse_delay ('3' :: '0' :: []) = some 180 ∧
    parse_delay ('3' :: '0' :: []) ≠ some (30 * 60) := by
  decide

/-- C3, amended: the last character is always consumed as the unit (m, h, d
give minutes, hours, days; any other character defaults to minutes) and the
value is the integer before the last character: n followed by m, h or d
yields n*60, n*3600, n*86400 seconds; a bare numeral of two or more digits
yields (n / 10) minutes, and a bare single digit fails. -/
theorem C3_parse_delay (n : Nat) :
    parse_delay (natRepr n ++ ['m']) = some ((n : Int) * 60) ∧
    parse_delay (natRepr n ++ ['h']) = some ((n : Int) * 3600) ∧
    parse_delay (natRepr n ++ ['d']) = some ((n : Int) * 86400) ∧
    (10 ≤ n → parse_delay (natRepr n) = some (((n / 10 : Nat) : Int) * 60)) ∧
    (n < 10 → parse_delay (natRepr n) = none) := by
  refine ⟨?_, ?_, ?_, ?_, ?_⟩
  · rw [parse_delay_concat (natRepr n) 'm' _ (pyInt_natRepr n),
      if_pos (by decide : 'm'.toLower = 'm')]
  · rw [parse_delay_concat (natRepr n) 'h' _ (pyInt_natRepr n),
      if_neg (by decide : ¬ ('h'.toLower = 'm')), if_pos (by decide : 'h'.toLower = 'h')]
  · rw [parse_delay_concat (natRepr n) 'd' _ (pyInt_natRepr n),
      if_neg (by decide : ¬ ('d'.toLower = 'm')), if_neg (by decide : ¬ ('d'.toLower = 'h')),
      if_pos (by decide : 'd'.toLower = 'd')]
  · intro h10
    rw [natRepr_ge h10,
      parse_delay_concat _ _ _ (pyInt_natRepr (n / 10)),
      digitChar_mult (Nat.mod_lt n (by omega))]
  · intro hlt
    rw [natRepr_lt hlt]
    rfl

/-- C3 witness: 30m is 1800 seconds, bare 30 is 180 seconds, bare 7 fails. -/
theorem C3_parse_delay_witness :
    parse_delay (natRepr 30 ++ ['m']) = some 1800 ∧
    parse_delay (natRepr 30) = some 180 ∧
    parse_delay (natRepr 7) = none := by
  refine ⟨?_, ?_, ?_⟩
  · have h := (C3_parse_delay 30).1
    simpa using h
  · have h := (C3_parse_delay 30).2.2.2.1 (by decide)
    simpa using h
  · exact (C3_parse_delay 7).2.2.2.2 (by decide)

/-- C4, counterexample: completing an already-completed record leaves its
flag true instead of flipping it to false, so Complete does not flip. -/
theorem C4_cex :
    ((complete_task [C4doneTask] 1).1[0]?).map Task.completed ≠
      some (!C4doneTask.completed) := by
  decide

/-- C4, amended: for an in-range position, Complete sets the completed flag
of that record to true (a flip only when it was active), triggers the full
persist, and leaves every other record and every other field unchanged. -/
theorem C4_complete_sets (tasks : List Task) (p : Nat)
    (hp1 : 1 ≤ p) (hp2 : p ≤ tasks.length) :
    (complete_task tasks (p : Int)).2 = true ∧
    (complete_task tasks (p : Int)).1[p - 1]? =
      tasks[p - 1]?.map (fun t => { t with completed := true }) ∧
    ∀ i : Nat, i ≠ p - 1 → (complete_task tasks (p : Int)).1[i]? = tasks[i]? := by
  have hc1 : (1 : Int) ≤ (p : Int) := by exact_mod_cast hp1
  have hc2 : (p : Int) ≤ (tasks.length : Int) := by exact_mod_cast hp2
  have hidx : ((p : Int) - 1).toNat = p - 1 := by omega
  rw [complete_task, if_pos ⟨hc1, hc2⟩]
  dsimp only
  rw [hidx]
  exact ⟨rfl, setCompletedAt_getElem_self tasks (p - 1),
    fun i hi => setCompletedAt_getElem_other tasks (p - 1) i hi⟩

/-- C4 witness: completing the single active record persists and sets its
flag. -/
theorem C4_complete_sets_witness :
    (complete_task [C4activeTask] ((1 : Nat) : Int)).2 = true ∧
    (complete_task [C4activeTask] ((1 : Nat) : Int)).1[(1 : Nat) - 1]? =
      ([C4activeTask] : List Task)[(1 : Nat) - 1]?.map
        (fun t => { t with completed := true }) := by
  have h := C4_complete_sets [C4activeTask] 1 (by decide) (by decide)
  exact ⟨h.1, h.2.1⟩

/-- C5: an out-of-range position leaves the sequence unchanged and performs
no write (the invalid-task-number branch is taken). -/
theorem C5_out_of_range (tasks : List Task) (p : Int)
    (h : ¬(1 ≤ p ∧ p ≤ (tasks.length : Int))) :
    complete_task tasks p = (tasks, false) := by
  rw [complete_task, if_neg h]

/-- C5 witness: positions 0 and N+1 on a one-record store both fail without
mutating anything. -/
theorem C5_out_of_range_witness :
    complete_task [C5task] 0 = ([C5task], false) ∧
    complete_task [C5task] 2 = ([C5task], false) :=
  ⟨C5_out_of_range [C5task] 0 (by decide), C5_out_of_range [C5task] 2 (by decide)⟩

/-- C6: a line splitting into fewer than four leading fields decodes to
none and is dropped from the load, which continues with the remaining
lines; a line with four or more fields decodes successfully and is
collected in file order. -/
theorem C6_malformed_line :
    (∀ l : Str, (splitPipe (strip l)).length < 4 → Task.from_string l = none) ∧
    (∀ l : Str, 4 ≤ (splitPipe (strip l)).length → ∃ t, Task.from_string l = some t) ∧
    (∀ (pre : List Str) (l : Str) (post : List Str),
      (splitPipe (strip l)).length < 4 →
      load_tasks (pre ++ l :: post) = load_tasks pre ++ load_tasks post) ∧
    (∀ (pre : List Str) (l : Str) (post : List Str) (t : Task),
      Task.from_string l = some t →
      load_tasks (pre ++ l :: post) = load_tasks pre ++ t :: load_tasks post) := by
  refine ⟨fun l h => from_string_short h, fun l h => from_string_long h, ?_, ?_⟩
  · intro pre l post h
    rw [load_tasks_append, load_tasks_cons_none l (from_string_short h) post]
  · intro pre l post t h
    rw [load_tasks_append, load_tasks_cons_some l t h post]

/-- C6 witness: a malformed line decodes to none and is skipped while the
well-formed line after it still loads. -/
theorem C6_malformed_line_witness :
    Task.from_string C6badLine = none ∧
    load_tasks [C6badLine, C6goodLine] = load_tasks [] ++ load_tasks [C6goodLine] := by
  refine ⟨C6_malformed_line.1 C6badLine (by decide), ?_⟩
  exact C6_malformed_line.2.2.1 [] C6badLine [C6goodLine] (by decide)

/-- C7: when every record parses, report counts a record in the completed
or remaining counter and in its category's tally exactly when its created_at
is on or after now minus the window (7 days for week, 1 day for day). -/
theorem C7_report_window (tasks : List Task) (nowMin window : Int) (period : Str)
    (hp : (period = "week".toList ∧ window = 10080) ∨
      (period = "day".toList ∧ window = 1440))
    (hparse : ∀ t ∈ tasks, (strptimeMin t.created_at).isSome = true) :
    report tasks nowMin period = .ok
      ((tasks.filter (fun t => inWindow (nowMin - window) t && t.completed)).length,
       (tasks.filter (fun t => inWindow (nowMin - window) t && !t.completed)).length,
       (tasks.filter (fun t => inWindow (nowMin - window) t)).foldl
         (fun acc t => bumpCat acc t.category) []) ∧
    (∀ c : Str, catCount ((tasks.filter (fun t => inWindow (nowMin - window) t)).foldl
         (fun acc t => bumpCat acc t.category) []) c =
       (tasks.filter (fun t => inWindow (nowMin - window) t && t.category == c)).length) := by
  constructor
  · rcases hp with ⟨hper, hwin⟩ | ⟨hper, hwin⟩
    · subst hwin
      rw [report, if_pos hper]
      have h := reportScan_ok (nowMin - 10080) tasks 0 0 [] hparse
      simpa using h
    · subst hwin
      have hnw : ¬(period = "week".toList) := by rw [hper]; decide
      rw [report, if_neg hnw, if_pos hper]
      have h := reportScan_ok (nowMin - 1440) tasks 0 0 [] hparse
      simpa using h
  · intro c
    rw [catCount_foldl, List.filter_filter]
    have h0 : catCount [] c = 0 := rfl
    rw [h0, Nat.zero_add]
    congr 1
    apply List.filter_congr
    intro x _
    exact Bool.and_comm _ _

/-- C7 witness: with now at 2025-06-15 12:00, a day report excludes the
record created two days earlier and counts the one created an hour earlier
as remaining in its category. -/
theorem C7_report_window_witness :
    report [C7oldTask, C7recentTask] C7now ("day".toList) =
      .ok (0, 1, [("work".toList, 1)]) := by
  have h := (C7_report_window [C7oldTask, C7recentTask] C7now 1440 ("day".toList)
    (Or.inr ⟨rfl, rfl⟩) (by decide)).1
  rw [h]
  rfl

/-- C8, counterexample: a title containing the delimiter but carrying a
trailing space is not preserved by the round trip (the decoder strips it),
so the claim quantified over every record with a bar in its title is false. -/
theorem C8_cex :
    '|' ∈ C8badTask.title ∧
    (Task.from_string (Task.to_string C8badTask)).map Task.title ≠
      some C8badTask.title := by
  decide

/-- C8, amended: a title containing the delimiter survives the round trip
unchanged (the decoder rejoins the tail fields with the delimiter) provided
the title has no leading or trailing whitespace and no due-token match, the
other fields contain no delimiter, and the due date, when present, is
non-empty and whitespace-free. -/
theorem C8_pipe_title (t : Task) (_hpipe : '|' ∈ t.title)
    (h1 : t.title.head?.all (fun c => !isSpace c) = true)
    (h2 : t.title.getLast?.all (fun c => !isSpace c) = true)
    (h3 : findDue t.title = none)
    (h4 : '|' ∉ t.created_at) (h5 : '|' ∉ t.priority) (h6 : '|' ∉ t.category)
    (h7 : t.due_date.all (fun d => !d.isEmpty && d.all (fun c => !isSpace c)) = true) :
    (Task.from_string (Task.to_string t)).map Task.title = some t.title := by
  rw [from_string_to_string t h1 h2 h3 h4 h5 h6 h7]
  rfl

/-- C8 witness: a title with two delimiters survives the round trip. -/
theorem C8_pipe_title_witness :
    (Task.from_string (Task.to_string C8okTask)).map Task.title = some C8okTask.title :=
  C8_pipe_title C8okTask (by decide) (by decide) (by decide) (by decide)
    (by decide) (by decide) (by decide) (by decide)

/-- C9: listing without completed records yields exactly the pairs of an
active record with its one-based position in the full sequence (positions of
skipped completed records are not reused). -/
theorem C9_list_active (tasks : List Task) (i : Nat) (t : Task) :
    (i, t) ∈ (list_tasks tasks false).getD [] ↔
      1 ≤ i ∧ tasks[i - 1]? = some t ∧ t.completed = false := by
  by_cases he : tasks.isEmpty
  · rw [list_tasks, if_pos he]
    have hnil : tasks = [] := by simpa using he
    subst hnil
    simp
  · rw [list_tasks, if_neg he]
    simp only [Option.getD_some]
    rw [List.mem_filter, mem_numberTasks]
    constructor
    · rintro ⟨⟨hle, hget⟩, hf⟩
      refine ⟨hle, hget, ?_⟩
      simpa using hf
    · rintro ⟨hle, hget, hc⟩
      exact ⟨⟨hle, hget⟩, by simp [hc]⟩

/-- C9 witness: on the two-record store with a completed record first, only
the active record is listed and its reported position is 2. -/
theorem C9_list_active_witness :
    (2, C9activeTask) ∈ (list_tasks [C9doneTask, C9activeTask] false).getD [] ∧
    ¬(1, C9doneTask) ∈ (list_tasks [C9doneTask, C9activeTask] false).getD [] := by
  constructor
  · exact (C9_list_active [C9doneTask, C9activeTask] 2 C9activeTask).mpr (by decide)
  · intro hmem
    have h := (C9_list_active [C9doneTask, C9activeTask] 1 C9doneTask).mp hmem
    exact absurd h.2.2 (by decide)

/-- C10: with a supported period, report succeeds whenever every record's
created_at parses against the fixed format, and raises out of the scan
before producing any output as soon as some record's created_at fails to
parse.  The failure direction is stated for ASCII created_at strings, on
which the modelled parser agrees with strptime exactly (non-ASCII decimal
digits, which strptime would also accept, lie outside the model). -/
theorem C10_report_total (tasks : List Task) (nowMin : Int) (period : Str)
    (hper : period = "day".toList ∨ period = "week".toList) :
    ((∀ t ∈ tasks, (strptimeMin t.created_at).isSome = true) →
      (report tasks nowMin period).isOk = true) ∧
    ((∃ t ∈ tasks, strptimeMin t.created_at = none ∧
        ∀ c ∈ t.created_at, c.toNat < 128) →
      report tasks nowMin period = .error .parseError) := by
  constructor
  · intro hparse
    rcases hper with hper | hper
    · have hnw : ¬(period = "week".toList) := by rw [hper]; decide
      rw [report, if_neg hnw, if_pos hper, reportScan_ok _ _ _ _ _ hparse]
      rfl
    · rw [report, if_pos hper, reportScan_ok _ _ _ _ _ hparse]
      rfl
  · intro hbad
    obtain ⟨t, ht, hnone, -⟩ := hbad
    rcases hper with hper | hper
    · have hnw : ¬(period = "week".toList) := by rw [hper]; decide
      rw [report, if_neg hnw, if_pos hper]
      exact reportScan_err _ _ _ _ _ ⟨t, ht, hnone⟩
    · rw [report, if_pos hper]
      exact reportScan_err _ _ _ _ _ ⟨t, ht, hnone⟩

/-- C10 witness: a store whose single record parses reports successfully,
and adding a record with unparseable ASCII created_at makes report raise. -/
theorem C10_report_total_witness :
    (report [C10goodTask] 0 ("day".toList)).isOk = true ∧
    report [C10goodTask, C10badTask] 0 ("day".toList) = .error .parseError := by
  constructor
  · exact (C10_report_total [C10goodTask] 0 ("day".toList) (Or.inl rfl)).1 (by decide)
  · exact (C10_report_total [C10goodTask, C10badTask] 0 ("day".toList) (Or.inl rfl)).2
      ⟨C10badTask, by decide, by decide, by decide⟩

end QuickDo
